import Mathlib

/-!
Verification of `behavior_trends_analysis.py` — a shallow embedding of the
tabular retail-transactions pipeline (import, clean, four aggregators) and
proofs of the specified properties.

Modelling conventions, all traced from the Python source:
* A pandas `DataFrame` of transactions is an ordered list of rows (`List Row`);
  the frame object passed to `quarterly_revenue` is `DF`, which also records
  the `TransactionRevenue` column that `quarterly_revenue` assigns into its
  argument (source lines 124 and 127 perform in-place column assignment).
* Machine floats (`UnitPrice`, revenue, means) are modelled as `Rat`; the
  claims under study concern structure and exact small-value arithmetic,
  not float rounding.
* `pd.to_datetime` (default `errors='raise'`) is modelled on an `InvoiceDate`
  cell that is either null (NaN/NaT), an already-parsed timestamp, or a raw
  string represented by its parse outcome (`some d` parseable, `none` not).
* `groupby(key)` (default `sort=True`) produces one group per distinct key,
  keys in ascending order; `groupby(pd.Grouper(key=…, freq='Q'))` bins by
  calendar quarter with resample semantics: consecutive quarter bins from the
  earliest to the latest observed quarter, empty bins included (their sum is 0),
  rows whose key is NaT excluded from every bin.
* `sort_values(col, ascending=False)` follows pandas `nargsort`: the values
  and their positions are reversed, an ascending argsort is taken, and the
  resulting indexer is reversed again; numpy's quicksort is its stable
  insertion-sort small case for the group-sized arrays in our statements, and
  the double reversal then makes the descending sort stable (ties keep their
  original relative order). It is modelled as reverse, then stable ascending
  insertion sort, then reverse.
-/

/-- Calendar date (year, month 1–12, day): the payload of a parsed timestamp. -/
structure Date where
  year : Nat
  month : Nat
  day : Nat
deriving DecidableEq, Repr

/-- Quarter bucket of a date under `pd.Grouper(freq='Q')`: quarters are numbered
consecutively, four per year, so chronological order of pandas' quarter-end
labels agrees with ascending order of this index. -/
def quarterIdx (d : Date) : Nat :=
  d.year * 4 + (d.month - 1) / 3

/-- An `InvoiceDate` cell. `null` is NaN/NaT; `stamp d` an already-parsed
timestamp; `raw o` a raw string cell represented by its parse outcome under
`pd.to_datetime` (`some d` when the string parses to `d`, `none` unparseable). -/
inductive DateCell where
  | null : DateCell
  | stamp : Date → DateCell
  | raw : Option Date → DateCell
deriving DecidableEq, Repr

/-- One transaction row, following the Transaction Row schema
{CustomerID, InvoiceNo, Description, Quantity, UnitPrice, InvoiceDate}. -/
structure Row where
  customerID : Option Nat
  invoiceNo : Nat
  description : String
  quantity : Int
  unitPrice : Rat
  invoiceDate : DateCell
deriving DecidableEq, Repr

/-- The state of a transactions `DataFrame` object: its rows, and the
`TransactionRevenue` column if one has been assigned into it
(`quarterly_revenue` writes this column into its argument, source line 127). -/
structure DF where
  rows : List Row
  transactionRevenue : Option (List Rat)
deriving DecidableEq, Repr

/-! ### Loader (`import_data`, source lines 3–23) -/

/-- The characters after the last `'.'` of the list — the last element of
Python's `file_path.split('.')`; the whole list when it contains no `'.'`. -/
def lastSeg : List Char → List Char
  | [] => []
  | c :: cs => if '.' ∈ cs then lastSeg cs else if c = '.' then cs else c :: cs

/-- `file_path.split('.')[-1].lower()` of source line 16. -/
def extOf (p : String) : String :=
  ⟨(lastSeg p.data).map Char.toLower⟩

/-- Which pandas reader `import_data` dispatches to. The file read itself is
an external effect; the embedding records the chosen reader and the path. -/
inductive LoadResult where
  | readExcel : String → LoadResult
  | readCSV : String → LoadResult
deriving DecidableEq, Repr

/-- `import_data` (source lines 16–23): dispatch on the lowercased extension,
raising `ValueError` for any other extension. -/
def import_data (file_path : String) : Except String LoadResult :=
  if extOf file_path = "xlsx" then Except.ok (LoadResult.readExcel file_path)
  else if extOf file_path = "csv" then Except.ok (LoadResult.readCSV file_path)
  else Except.error "File format not supported. Use .xlsx or .csv files."

/-- Whether an `import_data` outcome is a successful load. -/
def loadOk (e : Except String LoadResult) : Bool :=
  match e with
  | Except.ok _ => true
  | Except.error _ => false

/-- Decidable equality of `Except` results, so concrete runs can be settled
by `decide`. -/
instance instDecEqExcept {ε α : Type} [DecidableEq ε] [DecidableEq α] :
    DecidableEq (Except ε α) := fun a b =>
  match a, b with
  | Except.ok x, Except.ok y =>
    if h : x = y then Decidable.isTrue (h ▸ rfl)
    else Decidable.isFalse (fun hh => h (Except.ok.inj hh))
  | Except.error x, Except.error y =>
    if h : x = y then Decidable.isTrue (h ▸ rfl)
    else Decidable.isFalse (fun hh => h (Except.error.inj hh))
  | Except.ok _, Except.error _ => Decidable.isFalse (fun hh => Except.noConfusion hh)
  | Except.error _, Except.ok _ => Decidable.isFalse (fun hh => Except.noConfusion hh)

/-! ### Cleaner (`filter_data`, source lines 34–54) -/

/-- `filter_data`: drop rows with null `CustomerID`
(`dropna(subset=['CustomerID'])`, line 48), then keep rows with
non-negative `Quantity` and `UnitPrice` (line 51). -/
def filter_data (dataset : List Row) : List Row :=
  (dataset.filter (fun r => r.customerID.isSome)).filter
    (fun r => decide (0 ≤ r.quantity) && decide (0 ≤ r.unitPrice))

/-! ### Theorems for claims C5, C6, C9 -/

/-- C5: every row retained by `filter_data` has non-null CustomerID,
non-negative Quantity and non-negative UnitPrice; the output is a subsequence
of the input (so no row is synthesized, relative order is preserved, and no
row occurs more often than in the input); the empty table maps to the empty
table. -/
theorem claim5_filter_data_clean :
    filter_data [] = [] ∧
    ∀ rows : List Row,
      (filter_data rows).Sublist rows ∧
      (∀ r, r ∈ filter_data rows →
        r.customerID.isSome = true ∧ 0 ≤ r.quantity ∧ 0 ≤ r.unitPrice) ∧
      (∀ r, (filter_data rows).count r ≤ rows.count r) := by
  refine ⟨rfl, fun rows => ⟨?_, ?_, ?_⟩⟩
  · exact (List.filter_sublist _).trans (List.filter_sublist _)
  · intro r hr
    unfold filter_data at hr
    have h2 := List.of_mem_filter hr
    have h1 := List.of_mem_filter (List.mem_of_mem_filter hr)
    simp only [Bool.and_eq_true, decide_eq_true_eq] at h2
    exact ⟨h1, h2.1, h2.2⟩
  · intro r
    exact (((List.filter_sublist _).trans (List.filter_sublist _)).count_le r)

/-- A valid row used in concrete instantiations. -/
def rowA : Row := ⟨some 7, 1, "A", 2, 3, DateCell.null⟩

/-- A concrete raw table: one valid row, one null-customer row, one
negative-quantity row. -/
def c5ex : List Row :=
  [rowA, ⟨none, 2, "B", 1, 1, DateCell.null⟩, ⟨some 8, 3, "C", -1, 1, DateCell.null⟩]

/-- Witness for C5 at a concrete table: the output is a subsequence of the
input and the retained row `rowA` has non-negative quantity. -/
theorem claim5_filter_data_clean_witness :
    (filter_data c5ex).Sublist c5ex ∧ 0 ≤ rowA.quantity := by
  refine ⟨(claim5_filter_data_clean.2 c5ex).1, ?_⟩
  exact ((claim5_filter_data_clean.2 c5ex).2.1 rowA (by decide)).2.1

/-- C6: the Cleaner is idempotent — filtering an already filtered table
changes nothing. -/
theorem claim6_filter_data_idempotent :
    ∀ t : List Row, filter_data (filter_data t) = filter_data t := by
  intro t
  unfold filter_data
  simp only [List.filter_filter]
  apply List.filter_congr
  intro r _
  cases hq : (decide (0 ≤ r.quantity) && decide (0 ≤ r.unitPrice)) <;>
    cases hc : r.customerID.isSome <;> simp [hq, hc]

/-- C9: a path whose lowercased extension is neither `xlsx` nor `csv` makes
`import_data` fail with the unsupported-format error and no table; a path with
a supported extension does not produce this error. -/
theorem claim9_unsupported_format :
    ∀ p : String,
      ((extOf p = "xlsx" ∨ extOf p = "csv") → ∃ r, import_data p = Except.ok r) ∧
      (extOf p ≠ "xlsx" → extOf p ≠ "csv" →
        import_data p =
          Except.error "File format not supported. Use .xlsx or .csv files.") := by
  intro p
  constructor
  · rintro (h | h) <;> simp [import_data, h]
  · intro h1 h2
    simp [import_data, h1, h2]

/-- Witness for C9: a `.pdf` path is rejected with the error, a `.csv` path
loads. -/
theorem claim9_unsupported_format_witness :
    import_data "data.pdf" =
      Except.error "File format not supported. Use .xlsx or .csv files." ∧
    ∃ r, import_data "data.csv" = Except.ok r := by
  refine ⟨(claim9_unsupported_format "data.pdf").2 (by decide) (by decide), ?_⟩
  exact (claim9_unsupported_format "data.csv").1 (Or.inr (by decide))

/-- A list of characters with no dot is its own last dot-separated segment. -/
theorem lastSeg_of_no_dot (cs : List Char) (h : '.' ∉ cs) : lastSeg cs = cs := by
  cases cs with
  | nil => rfl
  | cons c t =>
    have hc : c ≠ '.' := fun hcc => h (hcc ▸ List.mem_cons_self c t)
    have ht : '.' ∉ t := fun hm => h (List.mem_cons_of_mem c hm)
    rw [lastSeg, if_neg ht, if_neg hc]

/-- C10 counterexample: the path `"xlsx"` contains no `'.'`, yet `import_data`
accepts it (its whole name, used as the extension, is a supported one) — it is
not rejected as unsupported, refuting the claim that every dot-free path is
rejected. -/
theorem claim10_counterexample :
    ("xlsx" : String).data.contains '.' = false ∧
    import_data "xlsx" = Except.ok (LoadResult.readExcel "xlsx") := by
  constructor <;> decide

/-- C10 amended: the extension is the lowercased substring after the last `'.'`
(the whole path when it has no `'.'`); acceptance depends only on that
extension, so matching is case-insensitive (e.g. `.XLSX` and `.Csv` load); a
dot-free path is rejected as unsupported unless its whole name, lowercased, is
itself `xlsx` or `csv`. -/
theorem claim10_extension_rule_amended :
    (∀ p q : String, extOf p = extOf q → loadOk (import_data p) = loadOk (import_data q)) ∧
    import_data "Report.XLSX" = Except.ok (LoadResult.readExcel "Report.XLSX") ∧
    import_data "t.Csv" = Except.ok (LoadResult.readCSV "t.Csv") ∧
    (∀ p : String, '.' ∉ p.data →
      (import_data p =
          Except.error "File format not supported. Use .xlsx or .csv files."
        ↔ ((⟨p.data.map Char.toLower⟩ : String) ≠ "xlsx" ∧
           (⟨p.data.map Char.toLower⟩ : String) ≠ "csv"))) := by
  refine ⟨?_, by decide, by decide, ?_⟩
  · intro p q h
    by_cases h1 : extOf q = "xlsx"
    · simp [import_data, h, h1, loadOk]
    · by_cases h2 : extOf q = "csv" <;> simp [import_data, h, h1, h2, loadOk]
  · intro p hp
    have he : extOf p = (⟨p.data.map Char.toLower⟩ : String) := by
      unfold extOf
      rw [lastSeg_of_no_dot p.data hp]
    by_cases h1 : (⟨p.data.map Char.toLower⟩ : String) = "xlsx"
    · simp [import_data, he, h1]
    · by_cases h2 : (⟨p.data.map Char.toLower⟩ : String) = "csv" <;>
        simp [import_data, he, h1, h2]

/-- Witness for C10 amended: concrete instances of extension-only dispatch and
of the dot-free rule. -/
theorem claim10_extension_rule_amended_witness :
    loadOk (import_data "a.csv") = loadOk (import_data "b.csv") ∧
    import_data "report" =
      Except.error "File format not supported. Use .xlsx or .csv files." := by
  refine ⟨claim10_extension_rule_amended.1 "a.csv" "b.csv" (by decide), ?_⟩
  exact (claim10_extension_rule_amended.2.2.2 "report" (by decide)).mpr (by decide)

/-! ### Stable descending sort

`sort_values(col, ascending=False)` is modelled as a stable ascending
insertion sort on the column followed by a reversal (pandas `nargsort`
reverses the ascending argsort when `ascending=False`). The lemmas below
describe the result of the ascending stage on a list whose first components
are strictly increasing (as group keys produced by `groupby(sort=True)` are):
the sorted list is lexicographically ordered by (second component, first
component). -/

/-- Strict lexicographic order on pairs: by second component, then first. -/
def lexLt {α β : Type} [LT α] [LT β] (a b : α × β) : Prop :=
  a.2 < b.2 ∨ (a.2 = b.2 ∧ a.1 < b.1)

/-- Inserting a pair whose first component is below everything in a
lex-sorted list keeps the list lex-sorted. -/
theorem orderedInsert_lex {α β : Type} [LinearOrder α] [LinearOrder β]
    (x : α × β) (l : List (α × β))
    (hx : ∀ a ∈ l, x.1 < a.1)
    (hl : l.Pairwise lexLt) :
    (List.orderedInsert (fun a b : α × β => a.2 ≤ b.2) x l).Pairwise lexLt := by
  induction l with
  | nil => simp [lexLt]
  | cons b t ih =>
    rw [List.orderedInsert]
    by_cases hxb : x.2 ≤ b.2
    · rw [if_pos hxb]
      refine List.Pairwise.cons ?_ hl
      intro a ha
      have hxa : x.1 < a.1 := hx a ha
      have h2 : x.2 ≤ a.2 := by
        rcases List.mem_cons.mp ha with h | h
        · exact h ▸ hxb
        · rcases (List.pairwise_cons.mp hl).1 a h with h' | h'
          · exact le_trans hxb (le_of_lt h')
          · exact le_trans hxb (le_of_eq h'.1)
      rcases lt_or_eq_of_le h2 with h' | h'
      · exact Or.inl h'
      · exact Or.inr ⟨h', hxa⟩
    · rw [if_neg hxb]
      have hbx : b.2 < x.2 := lt_of_not_le hxb
      have hl' := List.pairwise_cons.mp hl
      refine List.Pairwise.cons ?_ (ih (fun a ha => hx a (List.mem_cons_of_mem b ha)) hl'.2)
      intro a ha
      rcases (List.mem_orderedInsert (fun a b : α × β => a.2 ≤ b.2)).mp ha with h | h
      · exact h ▸ Or.inl hbx
      · exact hl'.1 a h

/-- Stable ascending insertion sort by second component of a list with
strictly increasing first components yields a lex-sorted list. -/
theorem insertionSort_lex {α β : Type} [LinearOrder α] [LinearOrder β]
    (l : List (α × β)) (h : l.Pairwise (fun a b => a.1 < b.1)) :
    (List.insertionSort (fun a b : α × β => a.2 ≤ b.2) l).Pairwise lexLt := by
  induction l with
  | nil => simp
  | cons x t ih =>
    rw [List.insertionSort]
    apply orderedInsert_lex
    · intro a ha
      exact (List.pairwise_cons.mp h).1 a ((List.perm_insertionSort _ t).mem_iff.mp ha)
    · exact ih (List.pairwise_cons.mp h).2

/-- Mirrored tie order, describing the ascending stage run on the reversed
list: second components ascending, ties with first components descending. -/
def lexLtRev {α β : Type} [LT α] [LT β] (a b : α × β) : Prop :=
  a.2 < b.2 ∨ (a.2 = b.2 ∧ b.1 < a.1)

/-- Inserting a pair whose first component is above everything in a list
sorted by `lexLtRev` keeps the list sorted by `lexLtRev`. -/
theorem orderedInsert_lexRev {α β : Type} [LinearOrder α] [LinearOrder β]
    (x : α × β) (l : List (α × β))
    (hx : ∀ a ∈ l, a.1 < x.1)
    (hl : l.Pairwise lexLtRev) :
    (List.orderedInsert (fun a b : α × β => a.2 ≤ b.2) x l).Pairwise lexLtRev := by
  induction l with
  | nil => simp [lexLtRev]
  | cons b t ih =>
    rw [List.orderedInsert]
    by_cases hxb : x.2 ≤ b.2
    · rw [if_pos hxb]
      refine List.Pairwise.cons ?_ hl
      intro a ha
      have hxa : a.1 < x.1 := hx a ha
      have h2 : x.2 ≤ a.2 := by
        rcases List.mem_cons.mp ha with h | h
        · exact h ▸ hxb
        · rcases (List.pairwise_cons.mp hl).1 a h with h' | h'
          · exact le_trans hxb (le_of_lt h')
          · exact le_trans hxb (le_of_eq h'.1)
      rcases lt_or_eq_of_le h2 with h' | h'
      · exact Or.inl h'
      · exact Or.inr ⟨h', hxa⟩
    · rw [if_neg hxb]
      have hbx : b.2 < x.2 := lt_of_not_le hxb
      have hl' := List.pairwise_cons.mp hl
      refine List.Pairwise.cons ?_ (ih (fun a ha => hx a (List.mem_cons_of_mem b ha)) hl'.2)
      intro a ha
      rcases (List.mem_orderedInsert (fun a b : α × β => a.2 ≤ b.2)).mp ha with h | h
      · exact h ▸ Or.inl hbx
      · exact hl'.1 a h

/-- Stable ascending insertion sort by second component of a list with
strictly descending first components yields a `lexLtRev`-sorted list. -/
theorem insertionSort_lexRev {α β : Type} [LinearOrder α] [LinearOrder β]
    (l : List (α × β)) (h : l.Pairwise (fun a b => b.1 < a.1)) :
    (List.insertionSort (fun a b : α × β => a.2 ≤ b.2) l).Pairwise lexLtRev := by
  induction l with
  | nil => simp
  | cons x t ih =>
    rw [List.insertionSort]
    apply orderedInsert_lexRev
    · intro a ha
      exact (List.pairwise_cons.mp h).1 a ((List.perm_insertionSort _ t).mem_iff.mp ha)
    · exact ih (List.pairwise_cons.mp h).2

/-- A `≤`-sorted list without duplicates is strictly sorted. -/
theorem pairwise_lt_of_sorted_nodup {α : Type} [LinearOrder α]
    (l : List α) (hs : l.Pairwise (fun a b : α => a ≤ b)) (hn : l.Nodup) :
    l.Pairwise (fun a b : α => a < b) := by
  induction l with
  | nil => exact List.Pairwise.nil
  | cons x t ih =>
    rw [List.pairwise_cons] at hs ⊢
    rw [List.nodup_cons] at hn
    refine ⟨fun a ha => lt_of_le_of_ne (hs.1 a ha) ?_, ih hs.2 hn.2⟩
    intro hxa
    exact hn.1 (hxa ▸ ha)

/-! ### Loyalty Aggregator (`loyalty_customers`, source lines 73–95) -/

/-- Group keys of `df.groupby('CustomerID')` (defaults `sort=True`,
`dropna=True`): the distinct non-null customer ids, in ascending order. -/
def sortedCustomers (df : List Row) : List Nat :=
  List.insertionSort (fun a b : Nat => a ≤ b) (df.filterMap (fun r => r.customerID)).dedup

/-- `['InvoiceNo'].nunique()` for one customer group: the number of distinct
invoice numbers among that customer's rows. -/
def purchaseCount (df : List Row) (c : Nat) : Nat :=
  ((df.filter (fun r => r.customerID == some c)).map (fun r => r.invoiceNo)).dedup.length

/-- `loyalty_customers` (source lines 86–95): distinct-invoice count per
customer, threshold filter `PurchaseCount >= min_purchases`, then
`sort_values('PurchaseCount', ascending=False)` — pandas `nargsort` reverses
the rows, takes a stable ascending argsort, and reverses the indexer, giving
a stable descending sort. -/
def loyalty_customers (df : List Row) (min_purchases : Int) : List (Nat × Nat) :=
  let customer_purchases := (sortedCustomers df).map (fun c => (c, purchaseCount df c))
  let loyal := customer_purchases.filter (fun p => decide (min_purchases ≤ (p.2 : Int)))
  (List.insertionSort (fun a b : Nat × Nat => a.2 ≤ b.2) loyal.reverse).reverse

/-- A customer id appears among the group keys iff some row carries it. -/
theorem mem_sortedCustomers (df : List Row) (c : Nat) :
    c ∈ sortedCustomers df ↔ some c ∈ df.map (fun r => r.customerID) := by
  unfold sortedCustomers
  rw [(List.perm_insertionSort _ _).mem_iff, List.mem_dedup]
  simp [List.mem_filterMap, List.mem_map]

/-- The group keys are distinct. -/
theorem sortedCustomers_nodup (df : List Row) : (sortedCustomers df).Nodup :=
  ((List.perm_insertionSort _ _).nodup_iff).mpr (List.nodup_dedup _)

/-- The group keys are strictly ascending. -/
theorem sortedCustomers_strict (df : List Row) :
    (sortedCustomers df).Pairwise (fun a b : Nat => a < b) :=
  pairwise_lt_of_sorted_nodup _ (List.sorted_insertionSort _ _) (sortedCustomers_nodup df)

/-- C4: `loyalty_customers` returns exactly the customers whose distinct
`InvoiceNo` count meets `min_purchases`, each with that count, each at most
once, sorted by count descending; a non-positive threshold keeps every
customer that occurs in the input. -/
theorem claim4_loyalty_customers :
    ∀ (df : List Row) (m : Int),
      (∀ p, p ∈ loyalty_customers df m →
        p.2 = purchaseCount df p.1 ∧ m ≤ (p.2 : Int) ∧
        some p.1 ∈ df.map (fun r => r.customerID)) ∧
      (∀ c : Nat, some c ∈ df.map (fun r => r.customerID) →
        m ≤ (purchaseCount df c : Int) →
        (c, purchaseCount df c) ∈ loyalty_customers df m) ∧
      ((loyalty_customers df m).map Prod.fst).Nodup ∧
      (loyalty_customers df m).Pairwise (fun a b => b.2 ≤ a.2) ∧
      (m ≤ 0 → ∀ c : Nat, some c ∈ df.map (fun r => r.customerID) →
        ∃ k, (c, k) ∈ loyalty_customers df m) := by
  intro df m
  have hmem : ∀ p : Nat × Nat, p ∈ loyalty_customers df m ↔
      (p.1 ∈ sortedCustomers df ∧ p.2 = purchaseCount df p.1 ∧ m ≤ (p.2 : Int)) := by
    intro p
    unfold loyalty_customers
    rw [List.mem_reverse, (List.perm_insertionSort _ _).mem_iff, List.mem_reverse,
      List.mem_filter]
    simp only [List.mem_map, decide_eq_true_eq]
    constructor
    · rintro ⟨⟨c, hc, rfl⟩, hge⟩
      exact ⟨hc, rfl, hge⟩
    · rintro ⟨hc, hp2, hge⟩
      refine ⟨⟨p.1, hc, ?_⟩, hge⟩
      cases p with
      | mk a b => simp only at hp2 ⊢; rw [hp2]
  have hloyal : (((sortedCustomers df).map (fun c => (c, purchaseCount df c))).filter
      (fun p => decide (m ≤ (p.2 : Int)))).Pairwise (fun a b : Nat × Nat => a.1 < b.1) := by
    apply List.Pairwise.filter
    exact (List.pairwise_map).mpr (sortedCustomers_strict df)
  refine ⟨?_, ?_, ?_, ?_, ?_⟩
  · intro p hp
    obtain ⟨h1, h2, h3⟩ := (hmem p).mp hp
    exact ⟨h2, h3, (mem_sortedCustomers df p.1).mp h1⟩
  · intro c hc hm
    exact (hmem (c, purchaseCount df c)).mpr ⟨(mem_sortedCustomers df c).mpr hc, rfl, hm⟩
  · have hne : (loyalty_customers df m).Pairwise (fun a b : Nat × Nat => a.1 ≠ b.1) := by
      unfold loyalty_customers
      rw [List.pairwise_reverse]
      have hrevne : ((((sortedCustomers df).map (fun c => (c, purchaseCount df c))).filter
          (fun p => decide (m ≤ (p.2 : Int)))).reverse).Pairwise
            (fun a b : Nat × Nat => a.1 ≠ b.1) := by
        rw [List.pairwise_reverse]
        exact hloyal.imp (fun h => (ne_of_lt h) ∘ Eq.symm)
      have hs := ((List.perm_insertionSort (fun a b : Nat × Nat => a.2 ≤ b.2) _).pairwise_iff
        (fun {a b} (h : a.1 ≠ b.1) => h ∘ Eq.symm)).mpr hrevne
      exact hs.imp (fun h => h ∘ Eq.symm)
    exact (List.pairwise_map).mpr hne
  · unfold loyalty_customers
    rw [List.pairwise_reverse]
    have hrevlt : ((((sortedCustomers df).map (fun c => (c, purchaseCount df c))).filter
        (fun p => decide (m ≤ (p.2 : Int)))).reverse).Pairwise
          (fun a b : Nat × Nat => b.1 < a.1) := by
      rw [List.pairwise_reverse]
      exact hloyal
    exact (insertionSort_lexRev _ hrevlt).imp
      (fun h => by rcases h with h | h; exact le_of_lt h; exact le_of_eq h.1)
  · intro hm c hc
    refine ⟨purchaseCount df c,
      (hmem (c, purchaseCount df c)).mpr ⟨(mem_sortedCustomers df c).mpr hc, rfl, ?_⟩⟩
    exact le_trans hm (Int.natCast_nonneg _)

/-! ### Periodic Revenue Aggregator (`quarterly_revenue`, source lines 113–139)

Source line 124 assigns `pd.to_datetime(transactions['InvoiceDate'])` back into
the argument frame and line 127 assigns a new `TransactionRevenue` column into
it: both are in-place updates of the caller's object. The embedding therefore
returns, besides the summary, the state of the argument frame after the call. -/

/-- `pd.to_datetime` on one already-checked cell: NaN stays NaT, a timestamp
stays itself, a parseable raw string becomes its timestamp. -/
def convCell : DateCell → DateCell
  | DateCell.null => DateCell.null
  | DateCell.stamp d => DateCell.stamp d
  | DateCell.raw (some d) => DateCell.stamp d
  | DateCell.raw none => DateCell.raw none

/-- A row after the `InvoiceDate` column conversion of source line 124. -/
def convRow (r : Row) : Row :=
  { r with invoiceDate := convCell r.invoiceDate }

/-- `pd.to_datetime(transactions['InvoiceDate'])` (source line 124, default
`errors='raise'`): converts every cell, raising on the first unparseable one. -/
def toDatetimeCol : List Row → Except String (List Row)
  | [] => Except.ok []
  | r :: rs =>
    match r.invoiceDate with
    | DateCell.raw none => Except.error "Unknown datetime string format"
    | _ =>
      match toDatetimeCol rs with
      | Except.error e => Except.error e
      | Except.ok rest => Except.ok (convRow r :: rest)

/-- `UnitPrice * Quantity` of source line 127. -/
def rowRevenue (r : Row) : Rat :=
  r.unitPrice * (r.quantity : Rat)

/-- The (quarter, revenue) pair of one row, when `pd.Grouper(key='InvoiceDate',
freq='Q')` can bin it: rows without a parsed date (NaT) are excluded. -/
def qualRow (r : Row) : Option (Nat × Rat) :=
  match r.invoiceDate with
  | DateCell.stamp d => some (quarterIdx d, rowRevenue r)
  | _ => none

/-- The (quarter, revenue) pairs of the binnable rows. -/
def qualifying (rows : List Row) : List (Nat × Rat) :=
  rows.filterMap qualRow

/-- The quarters of the binnable rows. -/
def quartersOf (rows : List Row) : List Nat :=
  (qualifying rows).map Prod.fst

/-- Revenue sum of one quarter bucket. -/
def qSum (qs : List (Nat × Rat)) (q : Nat) : Rat :=
  ((qs.filter (fun p => p.1 == q)).map Prod.snd).sum

/-- The `groupby(pd.Grouper(freq='Q')).sum()` bins: consecutive calendar
quarters from the earliest to the latest observed quarter, each with its
revenue sum — quarters with no rows included, their (empty) sum being 0. -/
def qBins (qs : List (Nat × Rat)) : List (Nat × Rat) :=
  match qs with
  | [] => []
  | p :: rest =>
    let lo := rest.foldl (fun a x => min a x.1) p.1
    let hi := rest.foldl (fun a x => max a x.1) p.1
    (List.range (hi + 1 - lo)).map (fun i => (lo + i, qSum (p :: rest) (lo + i)))

/-- `quarterly_revenue` (source lines 113–139). On success it returns the
post-call state of the argument frame (dates converted in place, a
`TransactionRevenue` column assigned) and the (period, revenue) summary. -/
def quarterly_revenue (transactions : DF) : Except String (DF × List (Nat × Rat)) :=
  match toDatetimeCol transactions.rows with
  | Except.error e => Except.error e
  | Except.ok rows2 =>
    Except.ok (⟨rows2, some (rows2.map rowRevenue)⟩, qBins (qualifying rows2))

/-- A left fold by `min` is bounded by its initial value. -/
theorem foldl_min_le_init (l : List Nat) : ∀ a : Nat, l.foldl min a ≤ a := by
  induction l with
  | nil => intro a; exact le_refl a
  | cons x t ih =>
    intro a
    exact le_trans (ih (min a x)) (min_le_left a x)

/-- A left fold by `min` is bounded by every list element. -/
theorem foldl_min_le_mem (l : List Nat) : ∀ a : Nat, ∀ x ∈ l, l.foldl min a ≤ x := by
  induction l with
  | nil => intro a x hx; exact absurd hx (List.not_mem_nil x)
  | cons y t ih =>
    intro a x hx
    rw [List.foldl_cons]
    rcases List.mem_cons.mp hx with h | h
    · subst h
      exact le_trans (foldl_min_le_init t _) (min_le_right a _)
    · exact ih (min a y) x h

/-- A left fold by `min` is the initial value or some list element. -/
theorem foldl_min_attained (l : List Nat) :
    ∀ a : Nat, l.foldl min a = a ∨ l.foldl min a ∈ l := by
  induction l with
  | nil => intro a; exact Or.inl rfl
  | cons y t ih =>
    intro a
    rcases ih (min a y) with h | h
    · rcases le_total a y with hay | hya
      · exact Or.inl (by rw [List.foldl_cons, h, min_eq_left hay])
      · exact Or.inr (by rw [List.foldl_cons, h, min_eq_right hya]; exact List.mem_cons_self y t)
    · exact Or.inr (List.mem_cons_of_mem y h)

/-- A left fold by `max` dominates its initial value. -/
theorem le_foldl_max_init (l : List Nat) : ∀ a : Nat, a ≤ l.foldl max a := by
  induction l with
  | nil => intro a; exact le_refl a
  | cons x t ih =>
    intro a
    exact le_trans (le_max_left a x) (ih (max a x))

/-- A left fold by `max` dominates every list element. -/
theorem le_foldl_max_mem (l : List Nat) : ∀ a : Nat, ∀ x ∈ l, x ≤ l.foldl max a := by
  induction l with
  | nil => intro a x hx; exact absurd hx (List.not_mem_nil x)
  | cons y t ih =>
    intro a x hx
    rw [List.foldl_cons]
    rcases List.mem_cons.mp hx with h | h
    · subst h
      exact le_trans (le_max_right a _) (le_foldl_max_init t _)
    · exact ih (max a y) x h

/-- A left fold by `max` is the initial value or some list element. -/
theorem foldl_max_attained (l : List Nat) :
    ∀ a : Nat, l.foldl max a = a ∨ l.foldl max a ∈ l := by
  induction l with
  | nil => intro a; exact Or.inl rfl
  | cons y t ih =>
    intro a
    rcases ih (max a y) with h | h
    · rcases le_total a y with hay | hya
      · exact Or.inr (by rw [List.foldl_cons, h, max_eq_right hay]; exact List.mem_cons_self y t)
      · exact Or.inl (by rw [List.foldl_cons, h, max_eq_left hya])
    · exact Or.inr (List.mem_cons_of_mem y h)

/-- A quarter with no qualifying row has an empty bucket, whose sum is 0. -/
theorem qSum_of_not_mem (qs : List (Nat × Rat)) (q : Nat)
    (h : q ∉ qs.map Prod.fst) : qSum qs q = 0 := by
  unfold qSum
  have hf : qs.filter (fun p => p.1 == q) = [] := by
    rw [List.filter_eq_nil_iff]
    intro p hp hpq
    exact h (List.mem_map.mpr ⟨p, hp, beq_iff_eq.mp hpq⟩)
  rw [hf]
  rfl

/-- Structure of the quarter bins: strictly increasing periods, each carrying
its bucket's revenue sum; every occupied quarter appears; every emitted period
lies between two occupied quarters; and every quarter lying between two
occupied quarters is emitted — including the unoccupied ones, whose sum is
0. -/
theorem qBins_spec (qs : List (Nat × Rat)) :
    (qBins qs).Pairwise (fun x y : Nat × Rat => x.1 < y.1) ∧
    (∀ p ∈ qBins qs, p.2 = qSum qs p.1) ∧
    (∀ q ∈ qs.map Prod.fst, (q, qSum qs q) ∈ qBins qs) ∧
    (∀ p ∈ qBins qs, ∃ a ∈ qs.map Prod.fst, ∃ b ∈ qs.map Prod.fst,
      a ≤ p.1 ∧ p.1 ≤ b) ∧
    (∀ q : Nat, (∃ a ∈ qs.map Prod.fst, a ≤ q) → (∃ b ∈ qs.map Prod.fst, q ≤ b) →
      (q, qSum qs q) ∈ qBins qs) := by
  cases qs with
  | nil =>
    refine ⟨List.Pairwise.nil, ?_, ?_, ?_, ?_⟩
    · intro p hp
      simp [qBins] at hp
    · intro q hq
      simp at hq
    · intro p hp
      simp [qBins] at hp
    · rintro q ⟨a, ha, _⟩ _
      simp at ha
  | cons p rest =>
    have hfold_min : rest.foldl (fun a x => min a x.1) p.1 =
        (rest.map Prod.fst).foldl min p.1 := (List.foldl_map Prod.fst min rest p.1).symm
    have hfold_max : rest.foldl (fun a x => max a x.1) p.1 =
        (rest.map Prod.fst).foldl max p.1 := (List.foldl_map Prod.fst max rest p.1).symm
    rw [qBins, hfold_min, hfold_max]
    set lo := (rest.map Prod.fst).foldl min p.1 with hlo
    set hi := (rest.map Prod.fst).foldl max p.1 with hhi
    have hlo_le : ∀ q ∈ (p :: rest).map Prod.fst, lo ≤ q := by
      intro q hq
      rcases List.mem_cons.mp hq with h | h
      · rw [List.map_cons] at hq
        rcases List.mem_cons.mp hq with h' | h'
        · exact h' ▸ foldl_min_le_init _ _
        · exact foldl_min_le_mem _ _ _ h'
      · rw [List.map_cons] at hq
        rcases List.mem_cons.mp hq with h' | h'
        · exact h' ▸ foldl_min_le_init _ _
        · exact foldl_min_le_mem _ _ _ h'
    have hhi_ge : ∀ q ∈ (p :: rest).map Prod.fst, q ≤ hi := by
      intro q hq
      rw [List.map_cons] at hq
      rcases List.mem_cons.mp hq with h' | h'
      · exact h' ▸ le_foldl_max_init _ _
      · exact le_foldl_max_mem _ _ _ h'
    have hlo_mem : lo ∈ (p :: rest).map Prod.fst := by
      rcases foldl_min_attained (rest.map Prod.fst) p.1 with h | h
      · rw [List.map_cons, hlo, h]; exact List.mem_cons_self _ _
      · rw [List.map_cons, hlo]; exact List.mem_cons_of_mem _ h
    have hhi_mem : hi ∈ (p :: rest).map Prod.fst := by
      rcases foldl_max_attained (rest.map Prod.fst) p.1 with h | h
      · rw [List.map_cons, hhi, h]; exact List.mem_cons_self _ _
      · rw [List.map_cons, hhi]; exact List.mem_cons_of_mem _ h
    refine ⟨?_, ?_, ?_, ?_, ?_⟩
    · refine (List.pairwise_map).mpr ?_
      exact (List.pairwise_lt_range _).imp (fun h => Nat.add_lt_add_left h lo)
    · intro x hx
      obtain ⟨i, _, rfl⟩ := List.mem_map.mp hx
      rfl
    · intro q hq
      have h1 : lo ≤ q := hlo_le q hq
      have h2 : q ≤ hi := hhi_ge q hq
      refine List.mem_map.mpr ⟨q - lo, List.mem_range.mpr (by omega), ?_⟩
      have : lo + (q - lo) = q := by omega
      rw [this]
    · intro x hx
      obtain ⟨i, hi', rfl⟩ := List.mem_map.mp hx
      have hir := List.mem_range.mp hi'
      exact ⟨lo, hlo_mem, hi, hhi_mem, Nat.le_add_right lo i, by omega⟩
    · rintro q ⟨a, ha, haq⟩ ⟨b, hb, hqb⟩
      have h1 : lo ≤ q := le_trans (hlo_le a ha) haq
      have h2 : q ≤ hi := le_trans hqb (hhi_ge b hb)
      refine List.mem_map.mpr ⟨q - lo, List.mem_range.mpr (by omega), ?_⟩
      have : lo + (q - lo) = q := by omega
      rw [this]

/-- When no cell is unparseable, the column conversion succeeds and converts
every row. -/
theorem toDatetimeCol_ok_of (rows : List Row)
    (h : ∀ r ∈ rows, r.invoiceDate ≠ DateCell.raw none) :
    toDatetimeCol rows = Except.ok (rows.map convRow) := by
  induction rows with
  | nil => rfl
  | cons r rs ih =>
    have hr := h r (List.mem_cons_self r rs)
    have hrs := ih (fun x hx => h x (List.mem_cons_of_mem r hx))
    cases hd : r.invoiceDate with
    | null => simp [toDatetimeCol, hd, hrs]
    | stamp d => simp [toDatetimeCol, hd, hrs]
    | raw o =>
      cases o with
      | none => exact absurd hd hr
      | some d => simp [toDatetimeCol, hd, hrs]

/-- When some cell is unparseable, the column conversion raises. -/
theorem toDatetimeCol_error_of (rows : List Row)
    (h : ∃ r ∈ rows, r.invoiceDate = DateCell.raw none) :
    toDatetimeCol rows = Except.error "Unknown datetime string format" := by
  induction rows with
  | nil => obtain ⟨r, hr, _⟩ := h; exact absurd hr (List.not_mem_nil r)
  | cons r rs ih =>
    by_cases hr : r.invoiceDate = DateCell.raw none
    · simp [toDatetimeCol, hr]
    · obtain ⟨x, hx, hxd⟩ := h
      rcases List.mem_cons.mp hx with hxr | hxr
      · exact absurd (hxr ▸ hxd) hr
      · have hrs := ih ⟨x, hxr, hxd⟩
        cases hd : r.invoiceDate with
        | null => simp [toDatetimeCol, hd, hrs]
        | stamp d => simp [toDatetimeCol, hd, hrs]
        | raw o =>
          cases o with
          | none => exact absurd hd hr
          | some d => simp [toDatetimeCol, hd, hrs]

/-- Inversion of a successful column conversion. -/
theorem toDatetimeCol_ok_elim (rows rows2 : List Row)
    (h : toDatetimeCol rows = Except.ok rows2) :
    rows2 = rows.map convRow ∧ ∀ r ∈ rows, r.invoiceDate ≠ DateCell.raw none := by
  by_cases hb : ∀ r ∈ rows, r.invoiceDate ≠ DateCell.raw none
  · rw [toDatetimeCol_ok_of rows hb] at h
    exact ⟨(Except.ok.inj h).symm, hb⟩
  · push_neg at hb
    rw [toDatetimeCol_error_of rows hb] at h
    exact absurd h (fun hh => Except.noConfusion hh)

/-- A converted row is fixed by a second conversion, and is never
unparseable. -/
theorem convRow_fix (r : Row) (h : r.invoiceDate ≠ DateCell.raw none) :
    convRow (convRow r) = convRow r ∧ (convRow r).invoiceDate ≠ DateCell.raw none := by
  cases hd : r.invoiceDate with
  | null => simp [convRow, convCell, hd]
  | stamp d => simp [convRow, convCell, hd]
  | raw o =>
    cases o with
    | none => exact absurd hd h
    | some d => simp [convRow, convCell, hd]

/-- Inversion of a successful `quarterly_revenue` call: the post-call frame
has its dates converted in place and a `TransactionRevenue` column assigned,
and the summary is the quarter binning of the converted rows. -/
theorem quarterly_revenue_ok_elim (df st : DF) (out : List (Nat × Rat))
    (h : quarterly_revenue df = Except.ok (st, out)) :
    st.rows = df.rows.map convRow ∧
    st.transactionRevenue = some (st.rows.map rowRevenue) ∧
    out = qBins (qualifying st.rows) ∧
    ∀ r ∈ df.rows, r.invoiceDate ≠ DateCell.raw none := by
  unfold quarterly_revenue at h
  cases htd : toDatetimeCol df.rows with
  | error e =>
    rw [htd] at h
    exact absurd h (fun hh => Except.noConfusion hh)
  | ok rows2 =>
    rw [htd] at h
    obtain ⟨hconv, hbad⟩ := toDatetimeCol_ok_elim _ _ htd
    have h2 := Except.ok.inj h
    have hst : st = ⟨rows2, some (rows2.map rowRevenue)⟩ := (congrArg Prod.fst h2).symm
    have hout : out = qBins (qualifying rows2) := (congrArg Prod.snd h2).symm
    rw [hst]
    exact ⟨hconv, rfl, hout, hbad⟩

/-- C1 counterexample: a concrete table on which `quarterly_revenue` leaves
its input changed — the returned frame state has the `InvoiceDate` converted
and a `TransactionRevenue` column that the input did not have. -/
theorem claim1_counterexample :
    quarterly_revenue ⟨[⟨some 1, 1, "A", 2, 5, DateCell.raw (some ⟨2011, 1, 10⟩)⟩], none⟩ =
      Except.ok (⟨[⟨some 1, 1, "A", 2, 5, DateCell.stamp ⟨2011, 1, 10⟩⟩], some [10]⟩,
        [(8044, 10)]) ∧
    (⟨[⟨some 1, 1, "A", 2, 5, DateCell.stamp ⟨2011, 1, 10⟩⟩], some [10]⟩ : DF) ≠
      ⟨[⟨some 1, 1, "A", 2, 5, DateCell.raw (some ⟨2011, 1, 10⟩)⟩], none⟩ := by
  refine ⟨?_, by decide⟩
  simp only [quarterly_revenue, toDatetimeCol, convRow, convCell, qualRow, qualifying, qBins, qSum,
    rowRevenue, quarterIdx, List.filterMap, List.map, List.filter, List.foldl,
    List.range_succ, List.range_zero, List.sum_cons, List.sum_nil]
  norm_num

/-- C1 amended: `filter_data` and the aggregators other than
`quarterly_revenue` perform no in-place update, but `quarterly_revenue`
mutates its input frame, converting `InvoiceDate` and assigning a
`TransactionRevenue` column into it; the call is deterministic, and repeating
it on the mutated frame returns a bit-identical output and leaves the frame
state fixed. -/
theorem claim1_mutation_amended :
    ∀ (df st : DF) (out : List (Nat × Rat)),
      quarterly_revenue df = Except.ok (st, out) →
      st.rows = df.rows.map convRow ∧
      st.transactionRevenue = some (st.rows.map rowRevenue) ∧
      quarterly_revenue st = Except.ok (st, out) := by
  intro df st out h
  obtain ⟨h1, h2, h3, h4⟩ := quarterly_revenue_ok_elim df st out h
  refine ⟨h1, h2, ?_⟩
  have hfix : st.rows.map convRow = st.rows := by
    rw [h1, List.map_map]
    apply List.map_congr_left
    intro r hr
    exact (convRow_fix r (h4 r hr)).1
  have hnb : ∀ r ∈ st.rows, r.invoiceDate ≠ DateCell.raw none := by
    rw [h1]
    intro r hr
    obtain ⟨r0, hr0, rfl⟩ := List.mem_map.mp hr
    exact (convRow_fix r0 (h4 r0 hr0)).2
  have htd2 : toDatetimeCol st.rows = Except.ok st.rows := by
    rw [toDatetimeCol_ok_of st.rows hnb, hfix]
  unfold quarterly_revenue
  rw [htd2, h3]
  cases st with
  | mk srows strev =>
    simp only at h2
    rw [h2]

/-- Witness for C1 amended: on a concrete frame, re-running
`quarterly_revenue` on the mutated frame reproduces the output and fixes the
state. -/
theorem claim1_mutation_amended_witness :
    quarterly_revenue ⟨[⟨some 1, 1, "A", 2, 5, DateCell.stamp ⟨2011, 1, 10⟩⟩], some [10]⟩ =
      Except.ok (⟨[⟨some 1, 1, "A", 2, 5, DateCell.stamp ⟨2011, 1, 10⟩⟩], some [10]⟩,
        [(8044, 10)]) :=
  (claim1_mutation_amended
    ⟨[⟨some 1, 1, "A", 2, 5, DateCell.raw (some ⟨2011, 1, 10⟩)⟩], none⟩
    ⟨[⟨some 1, 1, "A", 2, 5, DateCell.stamp ⟨2011, 1, 10⟩⟩], some [10]⟩
    [(8044, 10)]
    (by
      simp only [quarterly_revenue, toDatetimeCol, convRow, convCell, qualRow, qualifying, qBins, qSum,
        rowRevenue, quarterIdx, List.filterMap, List.map, List.filter, List.foldl,
        List.range_succ, List.range_zero, List.sum_cons, List.sum_nil]
      norm_num)).2.2

/-- Shape of a successful `quarterly_revenue` call. -/
theorem quarterly_revenue_ok_of (df : DF)
    (h : ∀ r ∈ df.rows, r.invoiceDate ≠ DateCell.raw none) :
    quarterly_revenue df = Except.ok
      (⟨df.rows.map convRow, some ((df.rows.map convRow).map rowRevenue)⟩,
       qBins (qualifying (df.rows.map convRow))) := by
  unfold quarterly_revenue
  rw [toDatetimeCol_ok_of df.rows h]

/-- Converting a null-dated row yields a row no quarter can bin. -/
theorem qualRow_convRow_null (r : Row) (hz : r.invoiceDate = DateCell.null) :
    qualRow (convRow r) = none := by
  simp [qualRow, convRow, convCell, hz]

/-- Rows whose `InvoiceDate` is null contribute nothing to the binnable pairs:
dropping them before conversion leaves `qualifying` unchanged. -/
theorem qualifying_filter_nonNull (rows : List Row) :
    qualifying ((rows.filter (fun r => !(r.invoiceDate == DateCell.null))).map convRow) =
      qualifying (rows.map convRow) := by
  induction rows with
  | nil => rfl
  | cons r t ih =>
    by_cases hz : r.invoiceDate = DateCell.null
    · have hb : ((r :: t).filter (fun r => !(r.invoiceDate == DateCell.null))) =
          t.filter (fun r => !(r.invoiceDate == DateCell.null)) := by
        rw [List.filter_cons]
        simp [hz]
      rw [hb, List.map_cons]
      unfold qualifying
      rw [List.filterMap_cons_none (qualRow_convRow_null r hz)]
      exact ih
    · have hb : ((r :: t).filter (fun r => !(r.invoiceDate == DateCell.null))) =
          r :: t.filter (fun r => !(r.invoiceDate == DateCell.null)) := by
        rw [List.filter_cons]
        simp [hz]
      rw [hb, List.map_cons, List.map_cons]
      unfold qualifying
      cases hq : qualRow (convRow r) with
      | none =>
        rw [List.filterMap_cons_none hq, List.filterMap_cons_none hq]
        exact ih
      | some b =>
        rw [List.filterMap_cons_some hq, List.filterMap_cons_some hq]
        exact congrArg (List.cons b) ih

/-- A concrete cleaned table with two rows in 2011 Q1 (revenue 10 and 20) and
one row in 2011 Q3 (revenue 5); 2011 Q2 contains no row. -/
def c2df : DF :=
  ⟨[⟨some 1, 1, "A", 2, 5, DateCell.stamp ⟨2011, 1, 10⟩⟩,
    ⟨some 1, 2, "A", 4, 5, DateCell.stamp ⟨2011, 2, 20⟩⟩,
    ⟨some 1, 3, "B", 1, 5, DateCell.stamp ⟨2011, 8, 1⟩⟩], none⟩

/-- C2 counterexample: on `c2df` the output contains a row `(8045, 0)` for
2011 Q2 even though no qualifying row lies in that quarter (the occupied
quarters are 8044 and 8046) — an empty quarter is emitted as a zero-revenue
row, refuting the claim that such quarters do not appear. -/
theorem claim2_counterexample :
    quarterly_revenue c2df =
      Except.ok (⟨c2df.rows, some [10, 20, 5]⟩, [(8044, 30), (8045, 0), (8046, 5)]) ∧
    quartersOf c2df.rows = [8044, 8044, 8046] := by
  refine ⟨?_, by decide⟩
  simp only [c2df, quarterly_revenue, toDatetimeCol, convRow, convCell, qualRow, qualifying, qBins,
    qSum, rowRevenue, quarterIdx, List.filterMap, List.map, List.filter, List.foldl,
    List.range_succ, List.range_zero, List.sum_cons, List.sum_nil]
  norm_num

/-- C2 amended: on success the summary has strictly increasing (hence
chronologically ordered) periods; each row carries its quarter's revenue sum;
every quarter containing a qualifying row appears; every emitted period lies
between two occupied quarters; every quarter lying between two occupied
quarters is emitted, even when it contains no qualifying row; and the sum
carried by such an unoccupied quarter is 0 — zero-revenue rows for interior
empty quarters, rather than omission. -/
theorem claim2_quarterly_bins_amended :
    ∀ (df st : DF) (out : List (Nat × Rat)),
      quarterly_revenue df = Except.ok (st, out) →
      out.Pairwise (fun x y : Nat × Rat => x.1 < y.1) ∧
      (∀ p ∈ out, p.2 = qSum (qualifying st.rows) p.1) ∧
      (∀ q ∈ quartersOf st.rows, (q, qSum (qualifying st.rows) q) ∈ out) ∧
      (∀ p ∈ out, ∃ a ∈ quartersOf st.rows, ∃ b ∈ quartersOf st.rows,
        a ≤ p.1 ∧ p.1 ≤ b) ∧
      (∀ q : Nat, (∃ a ∈ quartersOf st.rows, a ≤ q) →
        (∃ b ∈ quartersOf st.rows, q ≤ b) →
        (q, qSum (qualifying st.rows) q) ∈ out) ∧
      (∀ q : Nat, q ∉ quartersOf st.rows → qSum (qualifying st.rows) q = 0) := by
  intro df st out h
  obtain ⟨_, _, h3, _⟩ := quarterly_revenue_ok_elim df st out h
  rw [h3]
  obtain ⟨s1, s2, s3, s4, s5⟩ := qBins_spec (qualifying st.rows)
  exact ⟨s1, s2, s3, s4, s5, fun q hq => qSum_of_not_mem (qualifying st.rows) q hq⟩

/-- Witness for C2 amended at `c2df`: quarter 8045 lies between the occupied
quarters 8044 and 8046 but contains no qualifying row, so the output carries
the row (8045, its sum) and that sum is 0. -/
theorem claim2_quarterly_bins_amended_witness :
    (8045, qSum (qualifying ((⟨c2df.rows, some [10, 20, 5]⟩ : DF)).rows) 8045) ∈
      [(8044, (30 : Rat)), (8045, 0), (8046, 5)] ∧
    qSum (qualifying ((⟨c2df.rows, some [10, 20, 5]⟩ : DF)).rows) 8045 = 0 := by
  have happ := claim2_quarterly_bins_amended c2df ⟨c2df.rows, some [10, 20, 5]⟩
    [(8044, 30), (8045, 0), (8046, 5)] (by
      simp only [c2df, quarterly_revenue, toDatetimeCol, convRow, convCell, qualRow,
        qualifying, qBins, qSum, rowRevenue, quarterIdx, List.filterMap, List.map,
        List.filter, List.foldl, List.range_succ, List.range_zero, List.sum_cons,
        List.sum_nil]
      norm_num)
  refine ⟨happ.2.2.2.2.1 8045 ⟨8044, by decide, by decide⟩ ⟨8046, by decide, by decide⟩, ?_⟩
  exact happ.2.2.2.2.2 8045 (by decide)

/-- C3 counterexample: a single row with an unparseable `InvoiceDate` makes
`quarterly_revenue` raise (as `pd.to_datetime` does with its default
`errors='raise'`) instead of dropping the row and aggregating the rest —
refuting the claim that unparseable dates never fail the aggregation. -/
theorem claim3_counterexample :
    quarterly_revenue ⟨[⟨some 1, 1, "A", 1, 1, DateCell.raw none⟩], none⟩ =
      Except.error "Unknown datetime string format" := by
  decide

/-- C3 amended: a row with an unparseable `InvoiceDate` makes
`quarterly_revenue` fail with no output at all; when no row is unparseable the
call succeeds, and rows with a null `InvoiceDate` are excluded from every
quarter — dropping them beforehand yields the identical summary. -/
theorem claim3_dates_amended :
    ∀ df : DF,
      ((∃ r ∈ df.rows, r.invoiceDate = DateCell.raw none) →
        quarterly_revenue df = Except.error "Unknown datetime string format") ∧
      ((∀ r ∈ df.rows, r.invoiceDate ≠ DateCell.raw none) →
        ∃ st st2 out,
          quarterly_revenue df = Except.ok (st, out) ∧
          quarterly_revenue
              ⟨df.rows.filter (fun r => !(r.invoiceDate == DateCell.null)),
               df.transactionRevenue⟩ = Except.ok (st2, out)) := by
  intro df
  constructor
  · intro hbad
    unfold quarterly_revenue
    rw [toDatetimeCol_error_of df.rows hbad]
  · intro hok
    have hfil : ∀ r ∈ df.rows.filter (fun r => !(r.invoiceDate == DateCell.null)),
        r.invoiceDate ≠ DateCell.raw none :=
      fun r hr => hok r (List.mem_of_mem_filter hr)
    refine ⟨⟨df.rows.map convRow, some ((df.rows.map convRow).map rowRevenue)⟩,
      ⟨(df.rows.filter (fun r => !(r.invoiceDate == DateCell.null))).map convRow,
       some (((df.rows.filter (fun r => !(r.invoiceDate == DateCell.null))).map
         convRow).map rowRevenue)⟩,
      qBins (qualifying (df.rows.map convRow)),
      quarterly_revenue_ok_of df hok, ?_⟩
    rw [quarterly_revenue_ok_of ⟨df.rows.filter (fun r => !(r.invoiceDate == DateCell.null)),
      df.transactionRevenue⟩ hfil]
    dsimp only
    rw [qualifying_filter_nonNull df.rows]

/-- A concrete table with one null-dated row and one dated row, used to
instantiate the amended C3 theorem. -/
def c3wdf : DF :=
  ⟨[⟨some 1, 1, "A", 1, 1, DateCell.null⟩,
    ⟨some 1, 2, "A", 2, 5, DateCell.stamp ⟨2011, 1, 10⟩⟩], none⟩

/-- Witness for C3 amended at `c3wdf`: the call succeeds and dropping the
null-dated row gives the identical summary. -/
theorem claim3_dates_amended_witness :
    ∃ st st2 out,
      quarterly_revenue c3wdf = Except.ok (st, out) ∧
      quarterly_revenue
          ⟨c3wdf.rows.filter (fun r => !(r.invoiceDate == DateCell.null)),
           c3wdf.transactionRevenue⟩ = Except.ok (st2, out) :=
  (claim3_dates_amended c3wdf).2 (by decide)

/-! ### Top-Products Aggregator (`high_demand_products`, source lines 156–181) -/

/-- Group keys of `groupby('Description')` (default `sort=True`): the distinct
product names, in ascending (alphabetical) order. -/
def productKeys (rows : List Row) : List String :=
  List.insertionSort (fun a b : String => a ≤ b) ((rows.map (fun r => r.description)).dedup)

/-- Total `Quantity` over one product's rows. -/
def totalSold (rows : List Row) (d : String) : Int :=
  ((rows.filter (fun r => r.description == d)).map (fun r => r.quantity)).sum

/-- The grouped result `groupby('Description')['Quantity'].sum()`:
one (ProductName, TotalSold) row per distinct product, keys ascending. -/
def product_sales (rows : List Row) : List (String × Int) :=
  (productKeys rows).map (fun d => (d, totalSold rows d))

/-- `df.head(n)`: the first `n` rows when `n ≥ 0`, all but the last `|n|`
rows when `n` is negative. -/
def pdHead {α : Type} (n : Int) (l : List α) : List α :=
  if 0 ≤ n then l.take n.toNat else l.take (l.length - n.natAbs)

/-- `high_demand_products` (source lines 169–181): group by product, sum
quantities, `sort_values('TotalSold', ascending=False)` — pandas `nargsort`
reverses the rows, takes a stable ascending argsort, and reverses the
indexer, giving a stable descending sort — then `head(limit)`. -/
def high_demand_products (sales_data : List Row) (limit : Int) : List (String × Int) :=
  pdHead limit
    ((List.insertionSort (fun a b : String × Int => a.2 ≤ b.2)
      (product_sales sales_data).reverse).reverse)

/-- A product name appears among the group keys iff some row carries it. -/
theorem mem_productKeys (rows : List Row) (d : String) :
    d ∈ productKeys rows ↔ d ∈ rows.map (fun r => r.description) := by
  unfold productKeys
  rw [(List.perm_insertionSort _ _).mem_iff, List.mem_dedup]

/-- The product group keys are strictly ascending. -/
theorem productKeys_strict (rows : List Row) :
    (productKeys rows).Pairwise (fun a b : String => a < b) :=
  pairwise_lt_of_sorted_nodup _ (List.sorted_insertionSort _ _)
    (((List.perm_insertionSort _ _).nodup_iff).mpr (List.nodup_dedup _))

/-- String order via the character list (`String` comparisons themselves are
defined by well-founded recursion on iterators and do not evaluate by
`decide`). -/
theorem strLe (a b : String) (h : a.toList ≤ b.toList) : a ≤ b :=
  String.le_iff_toList_le.mpr h

/-- Negative string comparison via the character list. -/
theorem strNotLe (a b : String) (h : ¬a.toList ≤ b.toList) : ¬a ≤ b :=
  fun hab => absurd (String.le_iff_toList_le.mp hab) h

/-- Spec example table for the top-products aggregator: totals A:5, B:9,
C:9. -/
def c7rows : List Row :=
  [⟨some 1, 1, "A", 5, 1, DateCell.null⟩,
   ⟨some 1, 2, "B", 9, 1, DateCell.null⟩,
   ⟨some 1, 3, "C", 9, 1, DateCell.null⟩]

/-- Evaluation of the grouped result on `c7rows`. -/
theorem c7_sales_eval : product_sales c7rows = [("A", 5), ("B", 9), ("C", 9)] := by
  have hsorted : List.insertionSort (fun a b : String => a ≤ b) ["A", "B", "C"] =
      ["A", "B", "C"] := by
    refine List.Sorted.insertionSort_eq ?_
    refine List.Pairwise.cons ?_ (List.Pairwise.cons ?_ (List.pairwise_singleton _ _))
    · intro b hb
      rcases List.mem_cons.mp hb with h | h
      · exact h ▸ strLe "A" "B" (by decide)
      · rw [List.mem_singleton.mp h]
        exact strLe "A" "C" (by decide)
    · intro b hb
      rw [List.mem_singleton.mp hb]
      exact strLe "B" "C" (by decide)
  have hkeys : productKeys c7rows = ["A", "B", "C"] := by
    unfold productKeys
    have hd : (c7rows.map (fun r => r.description)).dedup = ["A", "B", "C"] := by decide
    rw [hd, hsorted]
  unfold product_sales
  rw [hkeys]
  decide

/-- Evaluation of the top-2 output on `c7rows`: the tie B/C keeps the grouped
(first-appearance) order, B first. -/
theorem c7_top_eval : high_demand_products c7rows 2 = [("B", 9), ("C", 9)] := by
  unfold high_demand_products
  rw [c7_sales_eval]
  decide

/-- C7: for non-negative `limit`, `high_demand_products` returns the first
`limit` rows of the per-product quantity totals sorted descending: the output
rows all come from the grouped result, totals are descending with ties kept
in the grouped (first-appearance) order, every omitted product sorts strictly
below every returned one, `limit = 0` yields the empty table, and a `limit`
at least the number of distinct products returns all of them. -/
theorem claim7_high_demand_products :
    ∀ (rows : List Row) (limit : Int), 0 ≤ limit →
      (high_demand_products rows limit).length =
        min limit.toNat (product_sales rows).length ∧
      (∀ p, p ∈ high_demand_products rows limit → p ∈ product_sales rows) ∧
      (high_demand_products rows limit).Pairwise
        (fun x y : String × Int => y.2 < x.2 ∨ (y.2 = x.2 ∧ x.1 < y.1)) ∧
      (∀ p, p ∈ high_demand_products rows limit → ∀ q, q ∈ product_sales rows →
        q ∉ high_demand_products rows limit →
        (q.2 < p.2 ∨ (q.2 = p.2 ∧ p.1 < q.1))) ∧
      (limit = 0 → high_demand_products rows limit = []) ∧
      ((product_sales rows).length ≤ limit.toNat →
        ∀ p, p ∈ product_sales rows → p ∈ high_demand_products rows limit) := by
  intro rows limit hl
  have hrev : ((product_sales rows).reverse).Pairwise
      (fun a b : String × Int => b.1 < a.1) :=
    List.pairwise_reverse.mpr ((List.pairwise_map).mpr (productKeys_strict rows))
  have hdesc : ((List.insertionSort (fun a b : String × Int => a.2 ≤ b.2)
      (product_sales rows).reverse).reverse).Pairwise
        (fun x y : String × Int => y.2 < x.2 ∨ (y.2 = x.2 ∧ x.1 < y.1)) :=
    List.pairwise_reverse.mpr (insertionSort_lexRev _ hrev)
  have hlen : ((List.insertionSort (fun a b : String × Int => a.2 ≤ b.2)
      (product_sales rows).reverse).reverse).length = (product_sales rows).length := by
    rw [List.length_reverse, List.length_insertionSort, List.length_reverse]
  have hmemS : ∀ q : String × Int,
      q ∈ (List.insertionSort (fun a b : String × Int => a.2 ≤ b.2)
        (product_sales rows).reverse).reverse ↔ q ∈ product_sales rows := by
    intro q
    rw [List.mem_reverse, (List.perm_insertionSort _ _).mem_iff, List.mem_reverse]
  have hhd : high_demand_products rows limit =
      ((List.insertionSort (fun a b : String × Int => a.2 ≤ b.2)
        (product_sales rows).reverse).reverse).take limit.toNat := by
    unfold high_demand_products pdHead
    rw [if_pos hl]
  refine ⟨?_, ?_, ?_, ?_, ?_, ?_⟩
  · rw [hhd, List.length_take, hlen]
  · intro p hp
    rw [hhd] at hp
    exact (hmemS p).mp (List.Sublist.mem hp (List.take_sublist _ _))
  · rw [hhd]
    exact List.Pairwise.sublist (List.take_sublist _ _) hdesc
  · intro p hp q hq hqn
    rw [hhd] at hp hqn
    have hqS := (hmemS q).mpr hq
    have hsplit := List.take_append_drop limit.toNat
      ((List.insertionSort (fun a b : String × Int => a.2 ≤ b.2)
        (product_sales rows).reverse).reverse)
    have hqd : q ∈ ((List.insertionSort (fun a b : String × Int => a.2 ≤ b.2)
        (product_sales rows).reverse).reverse).drop limit.toNat := by
      rcases List.mem_append.mp (by rw [hsplit]; exact hqS) with h | h
      · exact absurd h hqn
      · exact h
    have hpw : (((List.insertionSort (fun a b : String × Int => a.2 ≤ b.2)
        (product_sales rows).reverse).reverse).take limit.toNat ++
        ((List.insertionSort (fun a b : String × Int => a.2 ≤ b.2)
          (product_sales rows).reverse).reverse).drop limit.toNat).Pairwise
        (fun x y : String × Int => y.2 < x.2 ∨ (y.2 = x.2 ∧ x.1 < y.1)) := by
      rw [hsplit]
      exact hdesc
    exact (List.pairwise_append.mp hpw).2.2 p hp q hqd
  · intro h0
    subst h0
    rw [hhd]
    rfl
  · intro hge p hp
    rw [hhd, List.take_of_length_le (le_trans (le_of_eq hlen) hge)]
    exact (hmemS p).mpr hp

/-- Witness for C7 on the A:5/B:9/C:9 table with limit 2: B, earlier in the
grouped result, precedes its equal-total tie C in the output. -/
theorem claim7_high_demand_products_witness :
    ("B", (9 : Int)) ∈ product_sales c7rows ∧
    high_demand_products c7rows 2 = [("B", 9), ("C", 9)] :=
  ⟨(claim7_high_demand_products c7rows 2 (by decide)).2.1 ("B", 9)
    (by rw [c7_top_eval]; decide), c7_top_eval⟩

/-! ### Purchase-Pattern Aggregator (`purchase_patterns`, source lines 201–220) -/

/-- The rows of one product group. -/
def groupRows (rows : List Row) (d : String) : List Row :=
  rows.filter (fun r => r.description == d)

/-- `purchase_patterns` (source lines 212–220): per product (group keys
ascending), the arithmetic means of `Quantity` and of `UnitPrice`. -/
def purchase_patterns (sales_data : List Row) : List (String × Rat × Rat) :=
  (productKeys sales_data).map (fun d =>
    (d, ((groupRows sales_data d).map (fun r => (r.quantity : Rat))).sum /
          ((groupRows sales_data d).length : Rat),
        ((groupRows sales_data d).map (fun r => r.unitPrice)).sum /
          ((groupRows sales_data d).length : Rat)))

/-- The output keys of `purchase_patterns` are exactly the group keys. -/
theorem purchase_patterns_fst (rows : List Row) :
    (purchase_patterns rows).map Prod.fst = productKeys rows := by
  unfold purchase_patterns
  rw [List.map_map]
  exact List.map_id _

/-- A table whose products first appear in the order B, A. -/
def c8rows : List Row :=
  [⟨some 1, 1, "B", 1, 1, DateCell.null⟩, ⟨some 1, 2, "A", 1, 1, DateCell.null⟩]

/-- C8 counterexample: products appear in the input in the order B, A, but
the output rows are in the order A, B — the grouped (alphabetical) order, not
first-appearance order, refuting the claimed ordering. -/
theorem claim8_counterexample :
    c8rows.map (fun r => r.description) = ["B", "A"] ∧
    (purchase_patterns c8rows).map Prod.fst = ["A", "B"] := by
  refine ⟨by decide, ?_⟩
  rw [purchase_patterns_fst]
  unfold productKeys
  have hd : (c8rows.map (fun r => r.description)).dedup = ["B", "A"] := by decide
  rw [hd, List.insertionSort, List.insertionSort, List.insertionSort,
    List.orderedInsert_nil, List.orderedInsert,
    if_neg (strNotLe "B" "A" (by decide)), List.orderedInsert_nil]

/-- C8 amended: one output row per distinct product, carrying the exact
arithmetic means of Quantity and UnitPrice over that product's (nonempty)
group; the rows are ordered by ascending product name (the grouped-key
order), not by first appearance. -/
theorem claim8_purchase_patterns_amended :
    ∀ rows : List Row,
      ((purchase_patterns rows).map Prod.fst).Pairwise (fun a b : String => a < b) ∧
      (∀ d : String, d ∈ (purchase_patterns rows).map Prod.fst ↔
        d ∈ rows.map (fun r => r.description)) ∧
      (∀ e, e ∈ purchase_patterns rows →
        (groupRows rows e.1).length ≠ 0 ∧
        e.2.1 * ((groupRows rows e.1).length : Rat) =
          ((groupRows rows e.1).map (fun r => (r.quantity : Rat))).sum ∧
        e.2.2 * ((groupRows rows e.1).length : Rat) =
          ((groupRows rows e.1).map (fun r => r.unitPrice)).sum) := by
  intro rows
  refine ⟨?_, ?_, ?_⟩
  · rw [purchase_patterns_fst]
    exact productKeys_strict rows
  · intro d
    rw [purchase_patterns_fst]
    exact mem_productKeys rows d
  · intro e he
    obtain ⟨d, hd, rfl⟩ := List.mem_map.mp he
    have hd2 := (mem_productKeys rows d).mp hd
    obtain ⟨r, hr, hrd⟩ := List.mem_map.mp hd2
    have hmem : r ∈ groupRows rows d := by
      unfold groupRows
      refine List.mem_filter.mpr ⟨hr, ?_⟩
      rw [hrd]
      exact beq_self_eq_true d
    have hlen : (groupRows rows d).length ≠ 0 :=
      Nat.pos_iff_ne_zero.mp (List.length_pos_of_mem hmem)
    have hlenQ : ((groupRows rows d).length : Rat) ≠ 0 := Nat.cast_ne_zero.mpr hlen
    exact ⟨hlen, div_mul_cancel₀ _ hlenQ, div_mul_cancel₀ _ hlenQ⟩

/-- Spec example of the purchase-pattern aggregator: product X with
quantities [2, 4] and prices [10, 20]. -/
def c8wrows : List Row :=
  [⟨some 1, 1, "X", 2, 10, DateCell.null⟩, ⟨some 1, 2, "X", 4, 20, DateCell.null⟩]

/-- Witness for C8 amended: product X appears in the output, whose single row
carries the means 3 and 15. -/
theorem claim8_purchase_patterns_amended_witness :
    ("X" ∈ (purchase_patterns c8wrows).map Prod.fst) ∧
    purchase_patterns c8wrows = [("X", 3, 15)] := by
  refine ⟨((claim8_purchase_patterns_amended c8wrows).2.1 "X").mpr (by decide), ?_⟩
  have hk : productKeys c8wrows = ["X"] := by decide
  have hg : groupRows c8wrows "X" = c8wrows := by decide
  unfold purchase_patterns
  rw [hk, List.map_singleton, hg]
  unfold c8wrows
  norm_num [List.map_cons, List.map_nil, List.sum_cons, List.sum_nil]

/-- Spec example table for the loyalty aggregator: customer 1 has invoices
{11, 11, 12} (distinct count 2), customer 2 has invoice {13}. -/
def c4rows : List Row :=
  [⟨some 1, 11, "A", 1, 1, DateCell.null⟩,
   ⟨some 1, 11, "A", 1, 1, DateCell.null⟩,
   ⟨some 1, 12, "A", 1, 1, DateCell.null⟩,
   ⟨some 2, 13, "A", 1, 1, DateCell.null⟩]

/-- Witness for C4 on the spec's example: with threshold 2 only customer 1
remains, with its duplicate invoice counted once. -/
theorem claim4_loyalty_customers_witness :
    loyalty_customers c4rows 2 = [(1, 2)] ∧
    (1, purchaseCount c4rows 1) ∈ loyalty_customers c4rows 2 := by
  refine ⟨by decide, ?_⟩
  exact (claim4_loyalty_customers c4rows 2).2.1 1 (by decide) (by decide)
